import Mathlib

/-!
Shallow embedding of the template repository's authentication and
organization-RBAC code (server side), together with theorems settling the
specification claims about it.

The auth part embeds `utils/jwt.ts`, `services/auth.service.ts`,
`controllers/auth.controller.ts` and `middleware/auth.middleware.ts`:
JSON web tokens become records carrying their payload, the secret they were
signed with and their expiry instant (milliseconds); `jwt.verify` succeeds
exactly when the secret matches and the token is unexpired.  SHA-256 is
modelled as an injective, non-identity map from raw signed tokens to stored
digest values (`StoredVal.hashTok`); a stored column may in principle hold
either a raw token or a digest (`StoredVal`), so "only hashes are persisted"
is a real statement about the code, not a typing artifact.  Mongo collections
become Lean lists; `findOne` is `List.find?` (first match in insertion
order), `create` appends, `deleteOne` removes the first match.  The `id`
fields added by `numericIdPlugin` are genuine schema fields, so queries on
`id` match rows, as in the source.
-/

namespace Template

/-- Process-wide JWT configuration (`config/index.ts`), at its defaults. -/
def accessSecret : String := "access-secret"

/-- Refresh-token signing secret (`config/index.ts` default). -/
def refreshSecret : String := "refresh-secret"

/-- `config.jwt.accessExpiry` default. -/
def accessExpiryStr : String := "15m"

/-- `config.jwt.refreshExpiry` default. -/
def refreshExpiryStr : String := "7d"

/-- Milliseconds in a minute. -/
def minuteMs : Nat := 60000

/-- Milliseconds in a day. -/
def dayMs : Nat := 86400000

/-- JavaScript `parseInt` on a string with a leading digit run: the numeric
value of the leading digits (`parseInt('7d') = 7`). -/
def leadingNat (s : String) : Nat :=
  (s.data.takeWhile Char.isDigit).foldl (fun n c => n * 10 + (c.toNat - 48)) 0

/-- Duration strings as `jsonwebtoken` reads `expiresIn` values such as
`"7d"` or `"15m"`: leading number times the unit named by the suffix. -/
def durationMs (s : String) : Nat :=
  let n := leadingNat s
  match s.data.getLast? with
  | some 'd' => n * dayMs
  | some 'm' => n * minuteMs
  | _ => n

/-- Access-token payload (`AccessTokenPayload` in `utils/jwt.ts`). -/
structure AccessClaims where
  userId : String
  orgId : Option String
deriving DecidableEq

/-- A signed access token: payload, signing secret, expiry instant (ms). -/
structure AccessJwt where
  claims : AccessClaims
  secret : String
  exp : Nat
deriving DecidableEq

/-- Refresh-token payload (`RefreshTokenPayload`, as built by
`createAuthTokens`: `userId` plus the random `tokenId`). -/
structure RefreshClaims where
  userId : String
  tokenId : String
deriving DecidableEq

/-- A signed refresh token: payload, signing secret, expiry instant (ms). -/
structure RefreshJwt where
  claims : RefreshClaims
  secret : String
  exp : Nat
deriving DecidableEq

/-- Value stored in the `token` column of the refresh-token collection.
A column value is either a raw signed token or a SHA-256 digest of one;
distinguishing the two as constructors idealises the fact that a hex digest
is never a well-formed signed JWT string. -/
inductive StoredVal where
  | rawTok (j : RefreshJwt)
  | hashTok (j : RefreshJwt)
deriving DecidableEq

/-- `crypto.createHash('sha256').update(token).digest('hex')` on a raw
signed token, idealised as an injective map to digest values. -/
def sha256Hex (j : RefreshJwt) : StoredVal := .hashTok j

/-- `generateAccessToken` (`utils/jwt.ts`): sign with the access secret and
`config.jwt.accessExpiry`. -/
def generateAccessToken (c : AccessClaims) (now : Nat) : AccessJwt :=
  { claims := c, secret := accessSecret, exp := now + durationMs accessExpiryStr }

/-- `generateRefreshToken` (`utils/jwt.ts`): sign with the refresh secret and
`config.jwt.refreshExpiry`. -/
def generateRefreshToken (c : RefreshClaims) (now : Nat) : RefreshJwt :=
  { claims := c, secret := refreshSecret, exp := now + durationMs refreshExpiryStr }

/-- `verifyAccessToken` (`utils/jwt.ts`): `jwt.verify` against the access
secret; succeeds exactly when the signature is valid under that secret and
the token is unexpired.  Pure in the token, the configured secret and the
clock; no store parameter exists. -/
def verifyAccessToken (t : AccessJwt) (now : Nat) : Option AccessClaims :=
  if t.secret = accessSecret ∧ now < t.exp then some t.claims else none

/-- `verifyRefreshToken` (`utils/jwt.ts`). -/
def verifyRefreshToken (t : RefreshJwt) (now : Nat) : Option RefreshClaims :=
  if t.secret = refreshSecret ∧ now < t.exp then some t.claims else none

/-- User account status (`UserStatus` in `models/User.ts`). -/
inductive UserStatus where
  | active
  | inactive
  | suspended
deriving DecidableEq

/-- A row of the users collection (`models/User.ts`; `deleted` models a
non-null `deletedAt` from the soft-delete plugin). -/
structure UserRow where
  uid : String
  email : String
  firstName : String
  lastName : String
  passwordHash : String
  status : UserStatus
  lastLoginAt : Option Nat
  deleted : Bool
deriving DecidableEq

/-- A row of the refresh-token collection (`models/RefreshToken.ts`): the
plugin-generated `id`, the stored `token` column, the owner and expiry. -/
structure RefreshTokenRow where
  rid : String
  token : StoredVal
  userId : String
  expiresAt : Nat
deriving DecidableEq

/-- The auth-relevant database state: users and refresh tokens. -/
structure AuthState where
  users : List UserRow
  tokens : List RefreshTokenRow
deriving DecidableEq

/-- Mongo `deleteOne`: remove the first row matching the filter. -/
def eraseFirst (p : α → Bool) : List α → List α
  | [] => []
  | a :: l => if p a then l else a :: eraseFirst p l

/-- `bcrypt.hash`, idealised as a deterministic injective tagging. -/
def hashPassword (pw : String) : String := "bcrypt$" ++ pw

/-- The token pair returned by the auth service (`AuthTokens`). -/
structure AuthTokens where
  accessToken : AccessJwt
  refreshToken : RefreshJwt
deriving DecidableEq

/-- Errors thrown by the auth service and middleware. -/
inductive AuthErr where
  | invalidRefreshToken
  | tokenNotFound
  | tokenExpired
  | userNotFoundOrInactive
  | emailExists
  | invalidCredentials
  | accountNotActive
  | noToken
  | unauthenticated
deriving DecidableEq

/-- `createAuthTokens` (`services/auth.service.ts`): generate a refresh token
with a fresh random `tokenId`, hash it, compute the stored expiry as
`expiresAt.setDate(getDate() + parseInt(config.jwt.refreshExpiry) * 7)`,
persist the row, and generate an access token.  The fresh random values
(`crypto.randomBytes` token id, plugin row id) are passed as parameters. -/
def createAuthTokens (s : AuthState) (u : UserRow) (now : Nat)
    (freshTokenId freshRowId : String) : AuthTokens × AuthState :=
  let refreshTok := generateRefreshToken { userId := u.uid, tokenId := freshTokenId } now
  let hashedToken := sha256Hex refreshTok
  let expiresAt := now + (leadingNat refreshExpiryStr * 7) * dayMs
  let row : RefreshTokenRow :=
    { rid := freshRowId, token := hashedToken, userId := u.uid, expiresAt := expiresAt }
  let accessTok := generateAccessToken { userId := u.uid, orgId := none } now
  ({ accessToken := accessTok, refreshToken := refreshTok },
   { s with tokens := s.tokens ++ [row] })

/-- `registerUser` (`services/auth.service.ts`): reject an existing email,
create the user, issue tokens via `createAuthTokens`. -/
def registerUser (s : AuthState) (email pw firstName lastName : String) (now : Nat)
    (freshUserId freshTokenId freshRowId : String) :
    Except AuthErr (UserRow × AuthTokens) × AuthState :=
  match s.users.find? (fun u => decide (u.email = email ∧ u.deleted = false)) with
  | some _ => (.error .emailExists, s)
  | none =>
    let u : UserRow :=
      { uid := freshUserId, email := email, firstName := firstName, lastName := lastName,
        passwordHash := hashPassword pw, status := .active, lastLoginAt := none,
        deleted := false }
    let s1 : AuthState := { s with users := s.users ++ [u] }
    let (tk, s2) := createAuthTokens s1 u now freshTokenId freshRowId
    (.ok (u, tk), s2)

/-- `loginUser` (`services/auth.service.ts`): find the user by email, require
active status and a matching password, stamp `lastLoginAt`, issue tokens. -/
def loginUser (s : AuthState) (email pw : String) (now : Nat)
    (freshTokenId freshRowId : String) :
    Except AuthErr (UserRow × AuthTokens) × AuthState :=
  match s.users.find? (fun u => decide (u.email = email ∧ u.deleted = false)) with
  | none => (.error .invalidCredentials, s)
  | some user =>
    if user.status ≠ .active then (.error .accountNotActive, s)
    else if hashPassword pw ≠ user.passwordHash then (.error .invalidCredentials, s)
    else
      let user' : UserRow := { user with lastLoginAt := some now }
      let s1 : AuthState :=
        { s with users := s.users.map (fun u => if u.uid = user.uid then user' else u) }
      let (tk, s2) := createAuthTokens s1 user' now freshTokenId freshRowId
      (.ok (user', tk), s2)

/-- `refreshAccessToken` (`services/auth.service.ts`): verify the presented
token's signature and expiry, hash it, look it up together with its payload
`userId`, reject stale rows (deleting them), require the owning user to
exist, be non-deleted and active, then delete the old row by its `id` and
issue a fresh pair. -/
def refreshAccessToken (s : AuthState) (tok : RefreshJwt) (now : Nat)
    (freshTokenId freshRowId : String) : Except AuthErr AuthTokens × AuthState :=
  match verifyRefreshToken tok now with
  | none => (.error .invalidRefreshToken, s)
  | some payload =>
    let hashedToken := sha256Hex tok
    match s.tokens.find? (fun r => decide (r.token = hashedToken ∧ r.userId = payload.userId)) with
    | none => (.error .tokenNotFound, s)
    | some storedToken =>
      if storedToken.expiresAt < now then
        (.error .tokenExpired,
         { s with tokens := eraseFirst (fun r => decide (r.rid = storedToken.rid)) s.tokens })
      else
        match s.users.find? (fun u => decide (u.uid = payload.userId ∧ u.deleted = false)) with
        | none => (.error .userNotFoundOrInactive, s)
        | some user =>
          if user.status ≠ .active then (.error .userNotFoundOrInactive, s)
          else
            let s1 : AuthState :=
              { s with tokens := eraseFirst (fun r => decide (r.rid = storedToken.rid)) s.tokens }
            let (tk, s2) := createAuthTokens s1 user now freshTokenId freshRowId
            (.ok tk, s2)

/-- `logoutUser` (`services/auth.service.ts`): hash the presented token and
`deleteOne` the row holding that hash; never an error. -/
def logoutUser (s : AuthState) (tok : RefreshJwt) : AuthState :=
  { s with tokens := eraseFirst (fun r => decide (r.token = sha256Hex tok)) s.tokens }

/-- `authenticate` (`middleware/auth.middleware.ts`): missing bearer header
is rejected outright; otherwise any `verifyAccessToken` failure is surfaced
as the 401 `Invalid or expired access token`. -/
def authenticate (header : Option AccessJwt) (now : Nat) : Except AuthErr AccessClaims :=
  match header with
  | none => .error .noToken
  | some t =>
    match verifyAccessToken t now with
    | some p => .ok p
    | none => .error .unauthenticated

/-- Refresh-cookie `maxAge` set by the auth controller
(`controllers/auth.controller.ts`): `7 * 24 * 60 * 60 * 1000`. -/
def cookieMaxAgeMs : Nat := 7 * 24 * 60 * 60 * 1000

/-!
Organization RBAC embedding: `middleware/rbac.middleware.ts`,
`services/org.service.ts`, `controllers/org.controller.ts` and the member
routes of `routes/org.routes.ts` (`PUT .../members/:memberId/role`,
`DELETE .../members/:memberId`, each running `authenticate`,
`loadOrgContext`, `canManageMember`, `preventLastAdminModification` and then
the controller, in that order).
-/

/-- Membership roles (`models/Membership.ts`). -/
inductive Role where
  | orgAdmin
  | manager
  | technician
deriving DecidableEq

/-- Membership status (`models/Membership.ts`). -/
inductive MemStatus where
  | active
  | inactive
  | pending
deriving DecidableEq

/-- Organization status (`models/Organization.ts`). -/
inductive OrgStatus where
  | active
  | inactive
  | suspended
deriving DecidableEq

/-- A membership row: `_id`, user, organization, role, status, soft-delete
flag (`deletedAt !== null`). -/
structure MembershipRow where
  mid : String
  userId : String
  orgId : String
  role : Role
  status : MemStatus
  deleted : Bool
deriving DecidableEq

/-- An organization row: `_id`, `slug`, status, soft-delete flag. -/
structure OrgRow where
  oid : String
  slug : String
  status : OrgStatus
  deleted : Bool
deriving DecidableEq

/-- The RBAC-relevant database state. -/
structure OrgDB where
  orgs : List OrgRow
  members : List MembershipRow
deriving DecidableEq

/-- Short-circuit responses of the member-management pipeline. -/
inductive RbacErr where
  | badRequestSlug
  | orgNotFound
  | orgNotActive
  | notAMember
  | insufficientRole
  | manageForbidden
  | memberNotFound
  | lastAdminProtected
  | validationError
deriving DecidableEq

/-- `roleHierarchy` (`rbac.middleware.ts`). -/
def roleHierarchy : Role → Nat
  | .orgAdmin => 3
  | .manager => 2
  | .technician => 1

/-- `hasRequiredRole` (`rbac.middleware.ts`). -/
def hasRequiredRole (userRole requiredRole : Role) : Bool :=
  roleHierarchy requiredRole ≤ roleHierarchy userRole

/-- `loadOrgContext` (`rbac.middleware.ts`): resolve the organization by
slug (excluding soft-deleted rows), require it active, then resolve the
caller's non-deleted membership and require it active; on success attach
`(org, membership)`. -/
def loadOrgContext (db : OrgDB) (userId slug : String) :
    Except RbacErr (OrgRow × MembershipRow) :=
  if slug = "" then .error .badRequestSlug
  else
    match db.orgs.find? (fun o => decide (o.slug = slug ∧ o.deleted = false)) with
    | none => .error .orgNotFound
    | some o =>
      if o.status ≠ .active then .error .orgNotActive
      else
        match db.members.find?
            (fun m => decide (m.userId = userId ∧ m.orgId = o.oid ∧ m.deleted = false)) with
        | none => .error .notAMember
        | some m =>
          if m.status ≠ .active then .error .notAMember
          else .ok (o, m)

/-- `requireRole` (`rbac.middleware.ts`), applied to a loaded membership. -/
def requireRole (required : Role) (m : MembershipRow) : Except RbacErr Unit :=
  if hasRequiredRole m.role required then .ok () else .error .insufficientRole

/-- The `loadOrgContext` / `requireRole` middleware chain as run by the
org-scoped routes: context first, then the minimum-role check. -/
def orgGuard (db : OrgDB) (userId slug : String) (required : Role) :
    Except RbacErr MembershipRow :=
  match loadOrgContext db userId slug with
  | .error e => .error e
  | .ok (_, m) =>
    match requireRole required m with
    | .error e => .error e
    | .ok _ => .ok m

/-- HTTP method of a member-management request. -/
inductive Method where
  | put
  | delete
deriving DecidableEq

/-- The live count read by `preventLastAdminModification`:
`Membership.countDocuments with orgId, role org_admin, status active,
deletedAt null`. -/
def countActiveAdmins (db : OrgDB) (oid : String) : Nat :=
  (db.members.filter (fun m =>
    decide (m.orgId = oid ∧ m.role = .orgAdmin ∧ m.status = .active ∧ m.deleted = false))).length

/-- The guard condition of `preventLastAdminModification`:
`(newRole && newRole !== 'org_admin') || req.method === 'DELETE'`. -/
def demoteOrRemove (method : Method) (bodyRole : Option Role) : Bool :=
  (match bodyRole with
   | some r => decide (r ≠ Role.orgAdmin)
   | none => false) || decide (method = Method.delete)

/-- Mongo `findOneAndUpdate`: rewrite the first row matching the filter. -/
def updateFirst (p : α → Bool) (f : α → α) : List α → List α
  | [] => []
  | a :: l => if p a then f a :: l else a :: updateFirst p f l

/-- The controller stage of the member routes (`org.controller.ts`
`updateMemberRole` / `removeMember`): re-resolve the organization by slug,
validate the body for the role update, and apply the service mutation
(`org.service.ts` `updateMemberRole` / `removeMember`, a `findOneAndUpdate`
on `_id`, `orgId`, `deletedAt` null). -/
def memberController (db : OrgDB) (slug memberId : String)
    (method : Method) (bodyRole : Option Role) : Except RbacErr Unit × OrgDB :=
  match method with
  | .put =>
    match bodyRole with
    | none => (.error .validationError, db)
    | some r =>
      match db.orgs.find? (fun o2 => decide (o2.slug = slug ∧ o2.deleted = false)) with
      | none => (.error .orgNotFound, db)
      | some o2 =>
        match db.members.find?
            (fun t => decide (t.mid = memberId ∧ t.orgId = o2.oid ∧ t.deleted = false)) with
        | none => (.error .memberNotFound, db)
        | some _ =>
          let members' :=
            updateFirst
              (fun t => decide (t.mid = memberId ∧ t.orgId = o2.oid ∧ t.deleted = false))
              (fun t => { t with role := r }) db.members
          (.ok (), { db with members := members' })
  | .delete =>
    match db.orgs.find? (fun o2 => decide (o2.slug = slug ∧ o2.deleted = false)) with
    | none => (.error .orgNotFound, db)
    | some o2 =>
      match db.members.find?
          (fun t => decide (t.mid = memberId ∧ t.orgId = o2.oid ∧ t.deleted = false)) with
      | none => (.error .memberNotFound, db)
      | some _ =>
        let members' :=
          updateFirst
            (fun t => decide (t.mid = memberId ∧ t.orgId = o2.oid ∧ t.deleted = false))
            (fun t => { t with deleted := true }) db.members
        (.ok (), { db with members := members' })

/-- The member-management pipeline of `routes/org.routes.ts`
(`PUT /:orgSlug/members/:memberId/role` and
`DELETE /:orgSlug/members/:memberId`), after `authenticate`:
`loadOrgContext`, then `canManageMember` (target lookup by `_id`/org with
`deletedAt` null, then org-admin-manages-anyone or
manager-manages-technician, else forbidden), then
`preventLastAdminModification` (only when the caller's own membership is the
target: a demotion or a DELETE is refused when the live active-admin count is
at most one), then the controller stage. -/
def memberRoute (db : OrgDB) (userId slug memberId : String) (method : Method)
    (bodyRole : Option Role) : Except RbacErr Unit × OrgDB :=
  match loadOrgContext db userId slug with
  | .error e => (.error e, db)
  | .ok (o, m) =>
    match db.members.find?
        (fun t => decide (t.mid = memberId ∧ t.orgId = o.oid ∧ t.deleted = false)) with
    | none => (.error .memberNotFound, db)
    | some target =>
      if m.role = Role.orgAdmin ∨ (m.role = Role.manager ∧ target.role = Role.technician) then
        if m.mid = target.mid ∧ demoteOrRemove method bodyRole = true then
          if countActiveAdmins db o.oid ≤ 1 then (.error .lastAdminProtected, db)
          else memberController db slug memberId method bodyRole
        else memberController db slug memberId method bodyRole
      else (.error .manageForbidden, db)

deriving instance DecidableEq for Except

/-- Well-formedness of the refresh-token collection: the plugin-generated
`id` and the `token` column each carry a unique index, so rows are pairwise
distinct in both. -/
def wfTokens (s : AuthState) : Prop :=
  s.tokens.Pairwise (fun a b => a.rid ≠ b.rid ∧ a.token ≠ b.token)

/-!  Concrete fixtures used by the witness theorems. -/

/-- A raw refresh token signed for user `u1` with token id `t1`. -/
def wJwt : RefreshJwt :=
  { claims := { userId := "u1", tokenId := "t1" }, secret := refreshSecret, exp := 1000000 }

/-- An active user owning `wJwt`. -/
def wUser : UserRow :=
  { uid := "u1", email := "a@x.com", firstName := "A", lastName := "B",
    passwordHash := hashPassword "pw", status := .active, lastLoginAt := none,
    deleted := false }

/-- The same account, but inactive. -/
def wUserInactive : UserRow := { wUser with status := .inactive }

/-- The stored row holding the hash of `wJwt`. -/
def wRow : RefreshTokenRow :=
  { rid := "r1", token := sha256Hex wJwt, userId := "u1", expiresAt := 700000 }

/-- An auth state holding `wUser` and the row for `wJwt`. -/
def wState : AuthState := { users := [wUser], tokens := [wRow] }

/-- The same state with the owning account inactive. -/
def wStateInactive : AuthState := { users := [wUserInactive], tokens := [wRow] }

/-- An expired access token under the correct secret. -/
def wAccessTok : AccessJwt :=
  { claims := { userId := "u1", orgId := none }, secret := accessSecret, exp := 10 }

/-- An organization fixture. -/
def wOrg : OrgRow := { oid := "o1", slug := "acme", status := .active, deleted := false }

/-- An organization database where `u1` is a lone active `org_admin` and
`u2` a `manager`; used for the last-admin and authority witnesses. -/
def wDbAdmin : OrgDB :=
  { orgs := [wOrg],
    members :=
      [{ mid := "m1", userId := "u1", orgId := "o1", role := .orgAdmin,
         status := .active, deleted := false },
       { mid := "m2", userId := "u2", orgId := "o1", role := .manager,
         status := .active, deleted := false }] }

/-- An organization database with a `manager`, a `technician` and no
`org_admin` membership at all. -/
def wDbNoAdmin : OrgDB :=
  { orgs := [wOrg],
    members :=
      [{ mid := "m1", userId := "u1", orgId := "o1", role := .manager,
         status := .active, deleted := false },
       { mid := "m2", userId := "u2", orgId := "o1", role := .technician,
         status := .active, deleted := false }] }

/-- An organization database where `u1` has an inactive membership. -/
def wDbInactiveMember : OrgDB :=
  { orgs := [wOrg],
    members :=
      [{ mid := "m1", userId := "u1", orgId := "o1", role := .orgAdmin,
         status := .inactive, deleted := false }] }

/-! Helper lemmas about the store primitives. -/

theorem eraseFirst_subset {p : α → Bool} :
    ∀ {l : List α} {a : α}, a ∈ eraseFirst p l → a ∈ l := by
  intro l
  induction l with
  | nil => intro a h; cases h
  | cons b t ih =>
    intro a h
    by_cases hb : p b
    · simp only [eraseFirst, if_pos hb] at h
      exact List.mem_cons_of_mem _ h
    · simp only [eraseFirst, if_neg hb] at h
      rcases List.mem_cons.mp h with h | h
      · exact h ▸ List.mem_cons_self _ _
      · exact List.mem_cons_of_mem _ (ih h)

theorem eraseFirst_of_forall_not {p : α → Bool} :
    ∀ {l : List α}, (∀ a ∈ l, p a = false) → eraseFirst p l = l := by
  intro l
  induction l with
  | nil => intro _; rfl
  | cons b t ih =>
    intro h
    have hb : p b = false := h b (List.mem_cons_self _ _)
    simp only [eraseFirst, hb, Bool.false_eq_true, if_false]
    rw [ih (fun a ha => h a (List.mem_cons_of_mem _ ha))]

theorem eraseFirst_append_last {p : α → Bool} {l : List α} {x : α}
    (h : ∀ a ∈ l, p a = false) (hx : p x = true) : eraseFirst p (l ++ [x]) = l := by
  induction l with
  | nil => simp [eraseFirst, hx]
  | cons b t ih =>
    have hb : p b = false := h b (List.mem_cons_self _ _)
    simp only [List.cons_append, List.append_eq, eraseFirst, hb, Bool.false_eq_true, if_false]
    rw [ih (fun a ha => h a (List.mem_cons_of_mem _ ha))]

/-- Removing the row that carries a given `id` from a collection with
pairwise-distinct ids leaves only rows different from it. -/
theorem mem_eraseFirst_rid :
    ∀ {l : List RefreshTokenRow} {x : RefreshTokenRow},
      l.Pairwise (fun a b => a.rid ≠ b.rid) → x ∈ l →
      ∀ y ∈ eraseFirst (fun r => decide (r.rid = x.rid)) l, y ∈ l ∧ y ≠ x := by
  intro l
  induction l with
  | nil => intro x _ hx; cases hx
  | cons a t ih =>
    intro x hp hx y hy
    rw [List.pairwise_cons] at hp
    by_cases ha : a.rid = x.rid
    · simp only [eraseFirst] at hy
      rw [if_pos (decide_eq_true ha)] at hy
      rcases List.mem_cons.mp hx with rfl | hxt
      · exact ⟨List.mem_cons_of_mem _ hy, fun hee => (hp.1 y hy (hee ▸ rfl)).elim⟩
      · exact absurd ha (hp.1 x hxt)
    · simp only [eraseFirst] at hy
      rw [if_neg (fun hh => ha (of_decide_eq_true hh))] at hy
      rcases List.mem_cons.mp hx with rfl | hxt
      · exact absurd rfl ha
      · rcases List.mem_cons.mp hy with rfl | hyt
        · exact ⟨List.mem_cons_self _ _, fun hee => ha (hee ▸ rfl)⟩
        · obtain ⟨h1, h2⟩ := ih hp.2 hxt y hyt
          exact ⟨List.mem_cons_of_mem _ h1, h2⟩

/-- In a well-formed token collection the `token` column determines the
row. -/
theorem token_inj {l : List RefreshTokenRow}
    (h : l.Pairwise (fun a b => a.rid ≠ b.rid ∧ a.token ≠ b.token)) :
    ∀ x ∈ l, ∀ y ∈ l, x.token = y.token → x = y := by
  intro x hx y hy hxy
  by_contra hne
  have hsym : Symmetric (fun a b : RefreshTokenRow => a.rid ≠ b.rid ∧ a.token ≠ b.token) :=
    fun a b hab => ⟨fun hh => hab.1 hh.symm, fun hh => hab.2 hh.symm⟩
  exact (List.Pairwise.forall hsym h hx hy hne).2 hxy

theorem verifyRefreshToken_some {tok : RefreshJwt} {now : Nat} {p : RefreshClaims}
    (h : verifyRefreshToken tok now = some p) :
    tok.secret = refreshSecret ∧ now < tok.exp ∧ p = tok.claims := by
  unfold verifyRefreshToken at h
  split at h
  · rename_i hc
    exact ⟨hc.1, hc.2, (Option.some.injEq _ _ ▸ h).symm⟩
  · cases h

theorem verifyRefreshToken_eq_some {tok : RefreshJwt} {now : Nat}
    (h1 : tok.secret = refreshSecret) (h2 : now < tok.exp) :
    verifyRefreshToken tok now = some tok.claims := by
  unfold verifyRefreshToken
  rw [if_pos ⟨h1, h2⟩]

/-! Theorems settling the claims. -/

/-- C3: the claim says every stored refresh row's `expiresAt` is the
issuance time plus the refresh window (7 days), matching the signed JWT's
expiry and the cookie `maxAge`.  The code computes
`setDate(getDate() + parseInt('7d') * 7)`, i.e. issuance plus 49 days, while
the JWT is signed for 7 days and the cookie `maxAge` is 7 days: for every
issuance the persisted expiry exceeds the token's own expiry by 42 days. -/
theorem stored_refresh_expiry_mismatch (s : AuthState) (u : UserRow) (now : Nat)
    (ftid frid : String) :
    ∃ row, (createAuthTokens s u now ftid frid).2.tokens = s.tokens ++ [row] ∧
      row.expiresAt = now + 49 * dayMs ∧
      (createAuthTokens s u now ftid frid).1.refreshToken.exp = now + 7 * dayMs ∧
      row.expiresAt ≠ (createAuthTokens s u now ftid frid).1.refreshToken.exp ∧
      cookieMaxAgeMs = 7 * dayMs := by
  have h7 : leadingNat refreshExpiryStr = 7 := by decide
  have hd : durationMs refreshExpiryStr = 7 * dayMs := by decide
  refine ⟨_, rfl, ?_, ?_, ?_, ?_⟩
  · show now + (leadingNat refreshExpiryStr * 7) * dayMs = now + 49 * dayMs
    rw [h7]
  · show now + durationMs refreshExpiryStr = now + 7 * dayMs
    rw [hd]
  · show now + (leadingNat refreshExpiryStr * 7) * dayMs ≠ now + durationMs refreshExpiryStr
    rw [h7, hd]
    simp only [dayMs]
    omega
  · show cookieMaxAgeMs = 7 * dayMs
    decide

/-- C6: `verifyAccessToken` succeeds with the token's payload exactly when
the signature is valid under the configured access secret and the token is
unexpired; every expired token fails whatever its signature, every
wrongly-signed token fails, and `authenticate` surfaces any verification
failure as the 401 `Unauthenticated` response.  The verifier takes no store:
its result is a function of the token, the configured secret and the clock
alone. -/
theorem verify_access_stateless (t : AccessJwt) (now : Nat) :
    (verifyAccessToken t now = some t.claims ↔ (t.secret = accessSecret ∧ now < t.exp)) ∧
    (t.exp ≤ now → verifyAccessToken t now = none) ∧
    (t.secret ≠ accessSecret → verifyAccessToken t now = none) ∧
    (verifyAccessToken t now = none → authenticate (some t) now = .error .unauthenticated) := by
  refine ⟨⟨fun h => ?_, fun h => ?_⟩, fun h => ?_, fun h => ?_, fun h => ?_⟩
  · unfold verifyAccessToken at h
    split at h
    · assumption
    · cases h
  · unfold verifyAccessToken
    rw [if_pos h]
  · unfold verifyAccessToken
    rw [if_neg]
    intro hc
    exact absurd hc.2 (Nat.not_lt.mpr h)
  · unfold verifyAccessToken
    rw [if_neg]
    intro hc
    exact h hc.1
  · simp only [authenticate, h]

/-- Witness for C6 at a concrete expired, correctly-signed token. -/
theorem verify_access_stateless_witness :
    verifyAccessToken wAccessTok 20 = none ∧
    authenticate (some wAccessTok) 20 = .error .unauthenticated := by
  have h := verify_access_stateless wAccessTok 20
  have h1 : verifyAccessToken wAccessTok 20 = none := h.2.1 (by norm_num [wAccessTok])
  exact ⟨h1, h.2.2.2 h1⟩

/-- C1: refresh-token rotation is single-use.  For any well-formed store, if
rotating a raw token succeeds (with a fresh random token id, as
`crypto.randomBytes` guarantees), then the old row is gone from the
resulting store, the returned pair is brand new (its refresh token carries
the fresh id, so it differs from the presented one), and presenting the same
raw token again — still within its signature validity — fails with
`TokenNotFound`. -/
theorem rotation_single_use
    (s : AuthState) (tok : RefreshJwt) (now now' : Nat)
    (ftid frid ftid2 frid2 : String) (tk : AuthTokens) (s' : AuthState)
    (hWF : wfTokens s)
    (hfresh : ftid ≠ tok.claims.tokenId)
    (hrot : refreshAccessToken s tok now ftid frid = (.ok tk, s'))
    (hnow' : now' < tok.exp) :
    (∀ r ∈ s'.tokens, r.token ≠ sha256Hex tok) ∧
    tk.refreshToken.claims.tokenId = ftid ∧ tk.refreshToken ≠ tok ∧
    (refreshAccessToken s' tok now' ftid2 frid2).1 = .error .tokenNotFound := by
  unfold wfTokens at hWF
  rcases hv : verifyRefreshToken tok now with _ | payload
  · rw [refreshAccessToken, hv] at hrot
    simp at hrot
  obtain ⟨hsec, hnlt, hpe⟩ := verifyRefreshToken_some hv
  subst hpe
  simp only [refreshAccessToken, hv] at hrot
  rcases hfind : s.tokens.find?
      (fun r => decide (r.token = sha256Hex tok ∧ r.userId = tok.claims.userId)) with _ | st
  · rw [hfind] at hrot
    simp at hrot
  simp only [hfind] at hrot
  have hstp : st.token = sha256Hex tok ∧ st.userId = tok.claims.userId := by
    have h := List.find?_some hfind
    simpa using h
  have hstmem := List.mem_of_find?_eq_some hfind
  by_cases hexp : st.expiresAt < now
  · rw [if_pos hexp] at hrot
    simp at hrot
  rw [if_neg hexp] at hrot
  rcases hu : s.users.find?
      (fun u => decide (u.uid = tok.claims.userId ∧ u.deleted = false)) with _ | user
  · rw [hu] at hrot
    simp at hrot
  simp only [hu] at hrot
  by_cases hst : user.status ≠ UserStatus.active
  · rw [if_pos hst] at hrot
    simp at hrot
  rw [if_neg hst] at hrot
  simp only [createAuthTokens, generateRefreshToken, generateAccessToken,
    Prod.mk.injEq, Except.ok.injEq] at hrot
  obtain ⟨htk, hs'⟩ := hrot
  subst htk
  subst hs'
  have hG1 : ∀ r ∈ (eraseFirst (fun r => decide (r.rid = st.rid)) s.tokens ++
      [{ rid := frid,
         token := sha256Hex { claims := { userId := user.uid, tokenId := ftid },
                              secret := refreshSecret,
                              exp := now + durationMs refreshExpiryStr },
         userId := user.uid,
         expiresAt := now + leadingNat refreshExpiryStr * 7 * dayMs }]),
      r.token ≠ sha256Hex tok := by
    intro r hr
    rcases List.mem_append.mp hr with hr | hr
    · obtain ⟨hrl, hrne⟩ :=
        mem_eraseFirst_rid (hWF.imp (fun h => h.1)) hstmem r hr
      intro hcon
      exact hrne (token_inj hWF r hrl st hstmem (hcon.trans hstp.1.symm))
    · rw [List.mem_singleton.mp hr]
      intro hcon
      simp only [sha256Hex] at hcon
      have hj := StoredVal.hashTok.inj hcon
      exact hfresh (congrArg (fun j => j.claims.tokenId) hj)
  refine ⟨hG1, rfl, ?_, ?_⟩
  · intro hcon
    exact hfresh (congrArg (fun j => j.claims.tokenId) hcon)
  · have hv2 : verifyRefreshToken tok now' = some tok.claims :=
      verifyRefreshToken_eq_some hsec hnow'
    simp only [refreshAccessToken, hv2]
    have hnone :
        (eraseFirst (fun (r : RefreshTokenRow) => decide (r.rid = st.rid)) s.tokens ++
          [({ rid := frid,
              token := sha256Hex { claims := { userId := user.uid, tokenId := ftid },
                                   secret := refreshSecret,
                                   exp := now + durationMs refreshExpiryStr },
              userId := user.uid,
              expiresAt := now + leadingNat refreshExpiryStr * 7 * dayMs } : RefreshTokenRow)]).find?
          (fun r => decide (r.token = sha256Hex tok ∧ r.userId = tok.claims.userId)) =
        none := by
      rw [List.find?_eq_none]
      intro x hx
      simp only [decide_eq_true_eq, not_and]
      intro hxe
      exact absurd hxe (hG1 x hx)
    rw [hnone]

/-- Witness for C1: rotating the concrete stored token `wJwt` in `wState`
succeeds, and the concrete conclusion instances hold. -/
theorem rotation_single_use_witness :
    (∀ r ∈ (refreshAccessToken wState wJwt 10 "t2" "r2").2.tokens,
        r.token ≠ sha256Hex wJwt) ∧
    ((refreshAccessToken (refreshAccessToken wState wJwt 10 "t2" "r2").2
        wJwt 20 "t3" "r3").1 = .error .tokenNotFound) := by
  have hrot : refreshAccessToken wState wJwt 10 "t2" "r2" =
      ((refreshAccessToken wState wJwt 10 "t2" "r2").1,
       (refreshAccessToken wState wJwt 10 "t2" "r2").2) := rfl
  have hok : (refreshAccessToken wState wJwt 10 "t2" "r2").1 =
      .ok { accessToken := generateAccessToken { userId := "u1", orgId := none } 10,
            refreshToken :=
              generateRefreshToken { userId := "u1", tokenId := "t2" } 10 } := by decide
  have h := rotation_single_use wState wJwt 10 20 "t2" "r2" "t3" "r3"
    { accessToken := generateAccessToken { userId := "u1", orgId := none } 10,
      refreshToken := generateRefreshToken { userId := "u1", tokenId := "t2" } 10 }
    (refreshAccessToken wState wJwt 10 "t2" "r2").2
    (by constructor <;> simp)
    (by decide)
    (by rw [hrot, hok])
    (by decide)
  exact ⟨h.1, h.2.2.2⟩

/-- C9: when a stored, unexpired refresh token is presented but its owning
user is absent from the store (or soft-deleted) or has a non-active status,
rotation fails with the user-not-found-or-inactive error and the state —
in particular the stored token row — is returned unchanged. -/
theorem rotate_inactive_user_keeps_row
    (s : AuthState) (tok : RefreshJwt) (now : Nat) (ftid frid : String)
    (st : RefreshTokenRow)
    (hsec : tok.secret = refreshSecret) (hnlt : now < tok.exp)
    (hfind : s.tokens.find?
      (fun r => decide (r.token = sha256Hex tok ∧ r.userId = tok.claims.userId)) = some st)
    (hexp : ¬ st.expiresAt < now)
    (huser : ∀ u, s.users.find?
      (fun u => decide (u.uid = tok.claims.userId ∧ u.deleted = false)) = some u →
      u.status ≠ UserStatus.active) :
    refreshAccessToken s tok now ftid frid = (.error .userNotFoundOrInactive, s) := by
  have hv : verifyRefreshToken tok now = some tok.claims :=
    verifyRefreshToken_eq_some hsec hnlt
  simp only [refreshAccessToken, hv, hfind]
  rw [if_neg hexp]
  rcases hu : s.users.find?
      (fun u => decide (u.uid = tok.claims.userId ∧ u.deleted = false)) with _ | user
  · simp only [hu]
  · simp only [hu]
    rw [if_pos (huser user hu)]

/-- Witness for C9: rotating `wJwt` in `wStateInactive`, whose owning user is
inactive, errors and leaves the state unchanged. -/
theorem rotate_inactive_user_keeps_row_witness :
    refreshAccessToken wStateInactive wJwt 10 "t2" "r2" =
      (.error .userNotFoundOrInactive, wStateInactive) := by
  apply rotate_inactive_user_keeps_row wStateInactive wJwt 10 "t2" "r2" wRow rfl
    (by decide) (by decide) (by decide)
  intro u hu
  rw [show wStateInactive.users.find?
      (fun u => decide (u.uid = wJwt.claims.userId ∧ u.deleted = false)) =
      some wUserInactive by decide] at hu
  cases hu
  decide

/-- C7: revocation is idempotent and final.  `revoke` never errors and when
no row holds the presented token's hash it leaves the store untouched; and
the round trip of issuing a refresh token, revoking it and then rotating the
same raw token (still within its signature validity) fails with
`TokenNotFound`, given the issued token id was fresh for the store. -/
theorem revoke_idempotent_round_trip
    (s : AuthState) (tok : RefreshJwt) (u : UserRow) (now now' : Nat)
    (ftid frid ftid2 frid2 : String) :
    (logoutUser s tok).users = s.users ∧
    ((∀ r ∈ s.tokens, r.token ≠ sha256Hex tok) → logoutUser s tok = s) ∧
    ((∀ r ∈ s.tokens, ∀ j, r.token = StoredVal.hashTok j → j.claims.tokenId ≠ ftid) →
      now' < (createAuthTokens s u now ftid frid).1.refreshToken.exp →
      (refreshAccessToken
        (logoutUser (createAuthTokens s u now ftid frid).2
          (createAuthTokens s u now ftid frid).1.refreshToken)
        (createAuthTokens s u now ftid frid).1.refreshToken now' ftid2 frid2).1 =
        .error .tokenNotFound) := by
  refine ⟨rfl, fun h => ?_, fun h hlt => ?_⟩
  · simp only [logoutUser]
    rw [eraseFirst_of_forall_not (fun a ha => decide_eq_false (h a ha))]
  · have hrow : ∀ r ∈ s.tokens,
        (fun (r : RefreshTokenRow) => decide (r.token =
          sha256Hex (generateRefreshToken { userId := u.uid, tokenId := ftid } now))) r =
          false := by
      intro r hr
      apply decide_eq_false
      intro hcon
      exact h r hr _ (by simpa [sha256Hex] using hcon) rfl
    simp only [createAuthTokens, generateAccessToken] at hlt ⊢
    simp only [logoutUser]
    rw [eraseFirst_append_last hrow (by simp)]
    have hv : verifyRefreshToken (generateRefreshToken
        { userId := u.uid, tokenId := ftid } now) now' =
        some { userId := u.uid, tokenId := ftid } :=
      verifyRefreshToken_eq_some rfl hlt
    simp only [refreshAccessToken, hv]
    have hnone : s.tokens.find? (fun r => decide (r.token =
        sha256Hex (generateRefreshToken { userId := u.uid, tokenId := ftid } now) ∧
        r.userId = ({ userId := u.uid, tokenId := ftid } : RefreshClaims).userId)) =
        none := by
      rw [List.find?_eq_none]
      intro x hx
      simp only [decide_eq_true_eq, not_and]
      intro hxe
      have hfx := hrow x hx
      rw [decide_eq_false_iff_not] at hfx
      exact absurd hxe hfx
    rw [hnone]

/-- Witness for C7 on a store with no tokens: revoking an unknown token is a
no-op, and issue-revoke-rotate ends in `TokenNotFound`. -/
theorem revoke_idempotent_round_trip_witness :
    logoutUser { users := [wUser], tokens := [] } wJwt =
      { users := [wUser], tokens := [] } ∧
    (refreshAccessToken
      (logoutUser (createAuthTokens { users := [wUser], tokens := [] } wUser 10 "t9" "r9").2
        (createAuthTokens { users := [wUser], tokens := [] } wUser 10 "t9" "r9").1.refreshToken)
      (createAuthTokens { users := [wUser], tokens := [] } wUser 10 "t9" "r9").1.refreshToken
      20 "t8" "r8").1 = .error .tokenNotFound := by
  have h := revoke_idempotent_round_trip { users := [wUser], tokens := [] } wJwt wUser
    10 20 "t9" "r9" "t8" "r8"
  exact ⟨h.2.1 (by intro r hr; cases hr),
         h.2.2 (by intro r hr; cases hr) (by decide)⟩

/-- C5: the refresh-token store never receives a raw token value.  For each
of the three issuing operations — register, login, rotate — every row of the
resulting store either was already present or carries exactly the SHA-256
digest of the raw signed refresh token that the operation returned to its
caller; and a digest value is never a raw value. -/
theorem no_raw_token_persisted
    (s : AuthState) (email pw fn ln : String) (tok : RefreshJwt)
    (now : Nat) (fuid ftid frid : String) :
    (∀ res s', registerUser s email pw fn ln now fuid ftid frid = (res, s') →
      ∀ r ∈ s'.tokens, r ∈ s.tokens ∨
        ∃ nu tks, res = .ok (nu, tks) ∧ r.token = sha256Hex tks.refreshToken) ∧
    (∀ res s', loginUser s email pw now ftid frid = (res, s') →
      ∀ r ∈ s'.tokens, r ∈ s.tokens ∨
        ∃ nu tks, res = .ok (nu, tks) ∧ r.token = sha256Hex tks.refreshToken) ∧
    (∀ res s', refreshAccessToken s tok now ftid frid = (res, s') →
      ∀ r ∈ s'.tokens, r ∈ s.tokens ∨
        ∃ tks, res = .ok tks ∧ r.token = sha256Hex tks.refreshToken) ∧
    (∀ j j', sha256Hex j ≠ StoredVal.rawTok j') := by
  refine ⟨?_, ?_, ?_, ?_⟩
  · intro res s' hop r hr
    unfold registerUser at hop
    split at hop
    · obtain ⟨rfl, rfl⟩ := Prod.mk.injEq _ _ _ _ |>.mp hop
      exact Or.inl hr
    · simp only [createAuthTokens, Prod.mk.injEq] at hop
      obtain ⟨hres, hs'⟩ := hop
      rw [← hs'] at hr
      rcases List.mem_append.mp hr with hr | hr
      · exact Or.inl hr
      · refine Or.inr ⟨_, _, hres.symm, ?_⟩
        rw [List.mem_singleton.mp hr]
  · intro res s' hop r hr
    unfold loginUser at hop
    split at hop
    · obtain ⟨rfl, rfl⟩ := Prod.mk.injEq _ _ _ _ |>.mp hop
      exact Or.inl hr
    · rename_i user hu
      split at hop
      · obtain ⟨rfl, rfl⟩ := Prod.mk.injEq _ _ _ _ |>.mp hop
        exact Or.inl hr
      · split at hop
        · obtain ⟨rfl, rfl⟩ := Prod.mk.injEq _ _ _ _ |>.mp hop
          exact Or.inl hr
        · simp only [createAuthTokens, Prod.mk.injEq] at hop
          obtain ⟨hres, hs'⟩ := hop
          rw [← hs'] at hr
          rcases List.mem_append.mp hr with hr | hr
          · exact Or.inl hr
          · refine Or.inr ⟨_, _, hres.symm, ?_⟩
            rw [List.mem_singleton.mp hr]
  · intro res s' hop r hr
    rcases hv : verifyRefreshToken tok now with _ | payload
    · simp only [refreshAccessToken, hv] at hop
      obtain ⟨rfl, rfl⟩ := Prod.mk.injEq _ _ _ _ |>.mp hop
      exact Or.inl hr
    simp only [refreshAccessToken, hv] at hop
    rcases hfind : s.tokens.find?
        (fun r => decide (r.token = sha256Hex tok ∧ r.userId = payload.userId)) with _ | st
    · rw [hfind] at hop
      obtain ⟨rfl, rfl⟩ := Prod.mk.injEq _ _ _ _ |>.mp hop
      exact Or.inl hr
    simp only [hfind] at hop
    by_cases hexp : st.expiresAt < now
    · rw [if_pos hexp] at hop
      obtain ⟨rfl, rfl⟩ := Prod.mk.injEq _ _ _ _ |>.mp hop
      exact Or.inl (eraseFirst_subset hr)
    rw [if_neg hexp] at hop
    rcases hu : s.users.find?
        (fun u => decide (u.uid = payload.userId ∧ u.deleted = false)) with _ | user
    · rw [hu] at hop
      obtain ⟨rfl, rfl⟩ := Prod.mk.injEq _ _ _ _ |>.mp hop
      exact Or.inl hr
    simp only [hu] at hop
    by_cases hst : user.status ≠ UserStatus.active
    · rw [if_pos hst] at hop
      obtain ⟨rfl, rfl⟩ := Prod.mk.injEq _ _ _ _ |>.mp hop
      exact Or.inl hr
    rw [if_neg hst] at hop
    simp only [createAuthTokens, Prod.mk.injEq] at hop
    obtain ⟨hres, hs'⟩ := hop
    rw [← hs'] at hr
    rcases List.mem_append.mp hr with hr | hr
    · exact Or.inl (eraseFirst_subset hr)
    · refine Or.inr ⟨_, hres.symm, ?_⟩
      rw [List.mem_singleton.mp hr]
  · intro j j' hcon
    simp [sha256Hex] at hcon

/-- Witness for C5: the row written by a registration on an empty store is
the digest of the returned refresh token. -/
theorem no_raw_token_persisted_witness :
    ∀ r ∈ (registerUser { users := [], tokens := [] } "a@x.com" "pw" "A" "B"
        10 "u9" "t9" "r9").2.tokens,
      r ∈ ([] : List RefreshTokenRow) ∨
      ∃ nu tks, (registerUser { users := [], tokens := [] } "a@x.com" "pw" "A" "B"
          10 "u9" "t9" "r9").1 = .ok (nu, tks) ∧
        r.token = sha256Hex tks.refreshToken := by
  have h := (no_raw_token_persisted { users := [], tokens := [] } "a@x.com" "pw" "A" "B"
    wJwt 10 "u9" "t9" "r9").1
    (registerUser { users := [], tokens := [] } "a@x.com" "pw" "A" "B" 10 "u9" "t9" "r9").1
    (registerUser { users := [], tokens := [] } "a@x.com" "pw" "A" "B" 10 "u9" "t9" "r9").2
    rfl
  exact h

/-- Inversion of a successful `loadOrgContext`: the organization resolved by
slug, is active, and the caller's membership resolved and is active. -/
theorem loadOrgContext_ok {db : OrgDB} {userId slug : String}
    {o : OrgRow} {m : MembershipRow}
    (h : loadOrgContext db userId slug = .ok (o, m)) :
    db.orgs.find? (fun o => decide (o.slug = slug ∧ o.deleted = false)) = some o ∧
    o.status = OrgStatus.active ∧
    db.members.find?
      (fun m2 => decide (m2.userId = userId ∧ m2.orgId = o.oid ∧ m2.deleted = false)) =
      some m ∧
    m.status = MemStatus.active := by
  unfold loadOrgContext at h
  split at h
  · cases h
  rcases ho : db.orgs.find? (fun o => decide (o.slug = slug ∧ o.deleted = false)) with _ | o'
  · rw [ho] at h
    cases h
  rw [ho] at h
  simp only at h
  by_cases hs : o'.status ≠ OrgStatus.active
  · rw [if_pos hs] at h
    cases h
  rw [if_neg hs] at h
  rcases hm : db.members.find?
      (fun m2 => decide (m2.userId = userId ∧ m2.orgId = o'.oid ∧ m2.deleted = false)) with _ | m'
  · rw [hm] at h
    cases h
  rw [hm] at h
  simp only at h
  by_cases hms : m'.status ≠ MemStatus.active
  · rw [if_pos hms] at h
    cases h
  rw [if_neg hms] at h
  rw [Except.ok.injEq, Prod.mk.injEq] at h
  obtain ⟨rfl, rfl⟩ := h
  rw [not_not] at hs hms
  exact ⟨ho, hs, hm, hms⟩

/-- `loadOrgContext` never yields the minimum-role error. -/
theorem loadOrgContext_no_role_err (db : OrgDB) (userId slug : String) :
    loadOrgContext db userId slug ≠ .error .insufficientRole := by
  unfold loadOrgContext
  split
  · simp
  split
  · simp
  split
  · simp
  split
  · simp
  split
  · simp
  · simp

/-- The controller stage never yields an authority, last-admin or
membership error of the middleware stages. -/
theorem memberController_errs (db : OrgDB) (slug memberId : String)
    (method : Method) (bodyRole : Option Role) :
    (memberController db slug memberId method bodyRole).1 ≠ .error .manageForbidden ∧
    (memberController db slug memberId method bodyRole).1 ≠ .error .lastAdminProtected ∧
    (memberController db slug memberId method bodyRole).1 ≠ .error .insufficientRole ∧
    (memberController db slug memberId method bodyRole).1 ≠ .error .notAMember := by
  unfold memberController
  cases method
  · rcases bodyRole with _ | r
    · simp
    · simp only
      split
      · simp
      split
      · simp
      · simp
  · simp only
    split
    · simp
    split
    · simp
    · simp

/-- When the organization and the target membership resolve, and a role body
is present for a role update, the controller stage succeeds. -/
theorem memberController_ok (db : OrgDB) (slug memberId : String)
    (method : Method) (bodyRole : Option Role) (o : OrgRow) (target : MembershipRow)
    (ho : db.orgs.find? (fun o => decide (o.slug = slug ∧ o.deleted = false)) = some o)
    (htgt : db.members.find?
      (fun t => decide (t.mid = memberId ∧ t.orgId = o.oid ∧ t.deleted = false)) = some target)
    (hput : method = Method.put → ∃ r, bodyRole = some r) :
    (memberController db slug memberId method bodyRole).1 = .ok () := by
  cases method
  · obtain ⟨r, hr⟩ := hput rfl
    simp only [memberController, hr, ho, htgt]
  · simp only [memberController, ho, htgt]

/-- A role-update request that passes the demote-or-remove guard carries a
role in its body. -/
theorem demote_put_some {method : Method} {bodyRole : Option Role}
    (h : demoteOrRemove method bodyRole = true) (hm : method = Method.put) :
    ∃ r, bodyRole = some r := by
  subst hm
  unfold demoteOrRemove at h
  rcases bodyRole with _ | r
  · simp at h
  · exact ⟨r, rfl⟩

/-- C8: a caller with no active membership in an organization (no membership
row, or a non-active one) is stopped by `loadOrgContext` with the
`NotAMember` forbidden response whenever the organization itself resolves
and is active, and the combined context-then-role-check pipeline can never
reach the role-specific `InsufficientRole` error for such a caller, whatever
minimum role the route demands. -/
theorem no_membership_not_a_member
    (db : OrgDB) (userId slug : String) (required : Role)
    (hslug : slug ≠ "")
    (hno : ∀ o, db.orgs.find? (fun o => decide (o.slug = slug ∧ o.deleted = false)) = some o →
      ∀ m ∈ db.members, m.userId = userId → m.orgId = o.oid → m.deleted = false →
        m.status ≠ MemStatus.active) :
    (∀ o, db.orgs.find? (fun o => decide (o.slug = slug ∧ o.deleted = false)) = some o →
      o.status = OrgStatus.active →
      orgGuard db userId slug required = .error .notAMember) ∧
    orgGuard db userId slug required ≠ .error .insufficientRole := by
  have hload : ∀ o,
      db.orgs.find? (fun o => decide (o.slug = slug ∧ o.deleted = false)) = some o →
      o.status = OrgStatus.active →
      loadOrgContext db userId slug = .error .notAMember := by
    intro o ho hstat
    unfold loadOrgContext
    rw [if_neg hslug, ho]
    simp only
    rw [if_neg (by rw [hstat]; exact not_not_intro rfl)]
    rcases hm : db.members.find?
        (fun m2 => decide (m2.userId = userId ∧ m2.orgId = o.oid ∧ m2.deleted = false)) with _ | mem
    · rw [hm]
    · simp only [hm]
      have hp : mem.userId = userId ∧ mem.orgId = o.oid ∧ mem.deleted = false := by
        have h := List.find?_some hm
        simpa using h
      have hne := hno o ho mem (List.mem_of_find?_eq_some hm) hp.1 hp.2.1 hp.2.2
      rw [if_pos hne]
  constructor
  · intro o ho hstat
    unfold orgGuard
    rw [hload o ho hstat]
  · intro hcon
    unfold orgGuard at hcon
    rcases hl : loadOrgContext db userId slug with e | om
    · rw [hl] at hcon
      simp only [Except.error.injEq] at hcon
      subst hcon
      exact loadOrgContext_no_role_err db userId slug hl
    · obtain ⟨ho, hstat, hm, hms⟩ := loadOrgContext_ok (o := om.1) (m := om.2) (by rw [hl])
      have hp : om.2.userId = userId ∧ om.2.orgId = om.1.oid ∧ om.2.deleted = false := by
        have h := List.find?_some hm
        simpa using h
      exact hno om.1 ho om.2 (List.mem_of_find?_eq_some hm) hp.1 hp.2.1 hp.2.2 hms

/-- Witness for C8: in `wDbInactiveMember` the caller's only membership is
inactive, so the pipeline answers `NotAMember` and never `InsufficientRole`. -/
theorem no_membership_not_a_member_witness :
    orgGuard wDbInactiveMember "u1" "acme" Role.technician = .error .notAMember ∧
    orgGuard wDbInactiveMember "u1" "acme" Role.technician ≠ .error .insufficientRole := by
  have h := no_membership_not_a_member wDbInactiveMember "u1" "acme" Role.technician
    (by decide)
    (by
      intro o ho m hm h1 h2 h3
      rw [show wDbInactiveMember.orgs.find?
          (fun o => decide (o.slug = "acme" ∧ o.deleted = false)) = some wOrg by decide] at ho
      cases ho
      simp only [wDbInactiveMember, List.mem_singleton] at hm
      subst hm
      decide)
  exact ⟨h.1 wOrg (by decide) (by decide), h.2⟩

/-- C10: a member-management request whose target id matches no non-deleted
membership of the organization is answered `Member not found`, with the
database unchanged, for every caller role and whatever the admin counts —
the target lookup precedes the authority and last-admin stages. -/
theorem member_not_found_first
    (db : OrgDB) (userId slug memberId : String) (method : Method)
    (bodyRole : Option Role) (o : OrgRow) (m : MembershipRow)
    (hctx : loadOrgContext db userId slug = .ok (o, m))
    (htgt : db.members.find?
      (fun t => decide (t.mid = memberId ∧ t.orgId = o.oid ∧ t.deleted = false)) = none) :
    memberRoute db userId slug memberId method bodyRole = (.error .memberNotFound, db) := by
  simp only [memberRoute, hctx, htgt]

/-- Witness for C10: an unknown member id is reported not found even to the
org-admin caller of `wDbAdmin`. -/
theorem member_not_found_first_witness :
    memberRoute wDbAdmin "u1" "acme" "zz" .delete none = (.error .memberNotFound, wDbAdmin) := by
  exact member_not_found_first wDbAdmin "u1" "acme" "zz" .delete none wOrg
    { mid := "m1", userId := "u1", orgId := "o1", role := .orgAdmin,
      status := .active, deleted := false }
    (by decide) (by decide)

/-- C4: authority over the target.  Once the context is loaded and the
target membership resolves, the request is rejected with the
`InsufficientRole` forbidden response exactly when the caller is neither an
`org_admin` (who may act on anyone) nor a `manager` acting on a `technician`
target. -/
theorem authority_over_target
    (db : OrgDB) (userId slug memberId : String) (method : Method)
    (bodyRole : Option Role) (o : OrgRow) (m : MembershipRow) (target : MembershipRow)
    (hctx : loadOrgContext db userId slug = .ok (o, m))
    (htgt : db.members.find?
      (fun t => decide (t.mid = memberId ∧ t.orgId = o.oid ∧ t.deleted = false)) = some target) :
    (memberRoute db userId slug memberId method bodyRole).1 = .error .manageForbidden ↔
      ¬(m.role = Role.orgAdmin ∨ (m.role = Role.manager ∧ target.role = Role.technician)) := by
  simp only [memberRoute, hctx, htgt]
  by_cases ha : m.role = Role.orgAdmin ∨ (m.role = Role.manager ∧ target.role = Role.technician)
  · rw [if_pos ha]
    constructor
    · intro hres
      exfalso
      by_cases hself : m.mid = target.mid ∧ demoteOrRemove method bodyRole = true
      · rw [if_pos hself] at hres
        by_cases hcount : countActiveAdmins db o.oid ≤ 1
        · rw [if_pos hcount] at hres
          cases hres
        · rw [if_neg hcount] at hres
          exact (memberController_errs db slug memberId method bodyRole).1 hres
      · rw [if_neg hself] at hres
        exact (memberController_errs db slug memberId method bodyRole).1 hres
    · intro hcon
      exact absurd ha hcon
  · rw [if_neg ha]
    exact ⟨fun _ => ha, fun _ => rfl⟩

/-- Witness for C4: in `wDbNoAdmin` the manager `u1` targeting the manager
membership `m1` is refused. -/
theorem authority_over_target_witness :
    (memberRoute wDbNoAdmin "u1" "acme" "m1" .put (some .technician)).1 =
      .error .manageForbidden := by
  exact (authority_over_target wDbNoAdmin "u1" "acme" "m1" .put (some .technician) wOrg
    { mid := "m1", userId := "u1", orgId := "o1", role := .manager,
      status := .active, deleted := false }
    { mid := "m1", userId := "u1", orgId := "o1", role := .manager,
      status := .active, deleted := false }
    (by decide) (by decide)).mpr (by decide)

/-- C2 counterexample: in `wDbNoAdmin` — an organization with zero active
`org_admin` memberships — the manager `u1` removing the technician `m2` is an
operation after which the organization (still) has zero active `org_admin`
memberships, yet it succeeds rather than failing with `LastAdminProtected`:
the code's check is skipped entirely when the caller does not target their
own membership. -/
theorem last_admin_skip_counterexample :
    (memberRoute wDbNoAdmin "u1" "acme" "m2" .delete none).1 = .ok () ∧
    (memberRoute wDbNoAdmin "u1" "acme" "m2" .delete none).1 ≠ .error .lastAdminProtected ∧
    countActiveAdmins wDbNoAdmin "o1" = 0 ∧
    countActiveAdmins (memberRoute wDbNoAdmin "u1" "acme" "m2" .delete none).2 "o1" = 0 := by
  decide

/-- C2 (as amended): the last-admin protection applies only when the caller
targets their own membership.  In that case — after the authority check — a
self demotion to a non-admin role or a self removal fails with
`LastAdminProtected` when the live count of active `org_admin` memberships
in the organization is at most one, and succeeds when a second active admin
exists; a request targeting another member's membership is never answered
with `LastAdminProtected`. -/
theorem last_admin_self_only
    (db : OrgDB) (userId slug memberId : String) (method : Method)
    (bodyRole : Option Role) (o : OrgRow) (m : MembershipRow) (target : MembershipRow)
    (hctx : loadOrgContext db userId slug = .ok (o, m))
    (htgt : db.members.find?
      (fun t => decide (t.mid = memberId ∧ t.orgId = o.oid ∧ t.deleted = false)) = some target)
    (hauth : m.role = Role.orgAdmin ∨ (m.role = Role.manager ∧ target.role = Role.technician)) :
    (m.mid = target.mid → demoteOrRemove method bodyRole = true →
      countActiveAdmins db o.oid ≤ 1 →
      (memberRoute db userId slug memberId method bodyRole).1 = .error .lastAdminProtected) ∧
    (m.mid = target.mid → demoteOrRemove method bodyRole = true →
      2 ≤ countActiveAdmins db o.oid →
      (memberRoute db userId slug memberId method bodyRole).1 = .ok ()) ∧
    (m.mid ≠ target.mid →
      (memberRoute db userId slug memberId method bodyRole).1 ≠ .error .lastAdminProtected) := by
  obtain ⟨ho, _, _, _⟩ := loadOrgContext_ok hctx
  refine ⟨fun hself hdem hcount => ?_, fun hself hdem hcount => ?_, fun hother => ?_⟩
  · simp only [memberRoute, hctx, htgt]
    rw [if_pos hauth, if_pos ⟨hself, hdem⟩, if_pos hcount]
  · simp only [memberRoute, hctx, htgt]
    rw [if_pos hauth, if_pos ⟨hself, hdem⟩, if_neg (by omega)]
    exact memberController_ok db slug memberId method bodyRole o target ho htgt
      (demote_put_some hdem)
  · simp only [memberRoute, hctx, htgt]
    rw [if_pos hauth, if_neg (fun hc => hother hc.1)]
    exact (memberController_errs db slug memberId method bodyRole).2.1

/-- Witness for C2's amended statement: in `wDbAdmin` the sole active admin
`u1` demoting their own membership to `technician` is refused with
`LastAdminProtected`. -/
theorem last_admin_self_only_witness :
    (memberRoute wDbAdmin "u1" "acme" "m1" .put (some .technician)).1 =
      .error .lastAdminProtected := by
  exact (last_admin_self_only wDbAdmin "u1" "acme" "m1" .put (some .technician) wOrg
    { mid := "m1", userId := "u1", orgId := "o1", role := .orgAdmin,
      status := .active, deleted := false }
    { mid := "m1", userId := "u1", orgId := "o1", role := .orgAdmin,
      status := .active, deleted := false }
    (by decide) (by decide) (by decide)).1 rfl (by decide) (by decide)

end Template
